import Mathlib

/-
Verification of the simple-web-crawler core: the crawl traversal in
crawl_site, the filename sanitizer sanitize_filename, and the per-image
download procedure download_image, shallowly embedded from the Python
source.  External capabilities (HTTP fetch, HTML parsing, URL parsing and
resolution) are modelled as parameters of an environment record; Python
sets are modelled by lists with an insert-if-absent operation, so that
membership coincides with set membership.
-/

namespace SimpleWebCrawler

/-- Result of urlparse as used by the source: the network-location
component and the path component of a URL. -/
structure UrlParts where
  netloc : String
  path : String
deriving DecidableEq

/-- An img element as the source reads it: the three attributes consulted,
each possibly absent. -/
structure Img where
  dataSrc : Option String
  dataLazyload : Option String
  src : Option String
deriving DecidableEq

/-- A parsed page: its img elements and the href values of its anchor
elements that carry an href attribute. -/
structure Page where
  imgs : List Img
  anchors : List String
deriving DecidableEq

/-- Outcome of a page fetch: an exception from requests.get or
raise_for_status, or a successfully parsed page. -/
inductive FetchPage where
  | failure
  | success (page : Page)
deriving DecidableEq

/-- Outcome of an image fetch: an exception, or a response carrying an
optional content-type header. -/
inductive ImgFetch where
  | failure
  | success (contentType : Option String)
deriving DecidableEq

/-- The external capabilities the core calls into: URL parsing, URL
resolution, page fetching and image fetching. -/
structure Env where
  urlparse : String → UrlParts
  urljoin : String → String → String
  fetchPage : String → FetchPage
  imgFetch : String → ImgFetch

/-- Python set.add modelled on lists: insert the element if it is not
already a member, so duplicates never occur. -/
def addSet (l : List String) (x : String) : List String :=
  if x ∈ l then l else x :: l

/-- Python a or b on optional strings: None and the empty string are
falsy, and the second operand is returned unchanged otherwise. -/
def pyOr (a b : Option String) : Option String :=
  match a with
  | none => b
  | some s => if s = "" then b else some s

/-- The characters removed by sanitize_filename, from the regular
expression character class in the source. -/
def illegalChars : List Char :=
  ['<', '>', ':', '"', '/', '\\', '|', '?', '*']

/-- Character-list core of sanitize_filename: drop the illegal characters,
replace spaces with underscores, truncate to 200 characters. -/
def sanitizeChars (l : List Char) : List Char :=
  let f1 := l.filter (fun c => decide (c ∉ illegalChars))
  let f2 := f1.map (fun c => if c = ' ' then '_' else c)
  if f2.length > 200 then f2.take 200 else f2

/-- The sanitize_filename function from the source, with the early return
on the empty string. -/
def sanitize_filename (s : String) : String :=
  if s = "" then "" else String.mk (sanitizeChars s.toList)

/-- Membership test of a prefix string, modelling str.startswith. -/
def strStartsWith (s p : String) : Bool :=
  p.toList.isPrefixOf s.toList

/-- Python s.split(sep)[0] for a one-character separator: the prefix of
the string before the first occurrence of the separator. -/
def splitHead (s : String) (sep : Char) : String :=
  String.mk (s.toList.takeWhile (fun c => c != sep))

/-- Model of os.path.basename on a posix path: the part after the last
slash. -/
def basename (p : String) : String :=
  String.mk ((p.toList.reverse.takeWhile (fun c => c != '/')).reverse)

/-- Model of os.path.join for two posix components, as the source uses
it. -/
def pathJoin (a b : String) : String :=
  if b.toList.head? = some '/' then b
  else if a = "" ∨ a.toList.getLast? = some '/' then a ++ b
  else a ++ "/" ++ b

/-- The content-type test of the source: lowercase the declared type and
ask whether it starts with the image marker. -/
def isImageContentType (ct : String) : Bool :=
  strStartsWith (String.mk (ct.toList.map Char.toLower)) "image"

/-- Per-image result of download_image.  The source returns a boolean;
the four constructors label its distinct return sites, following the
outcome taxonomy the boolean collapses. -/
inductive DownloadOutcome where
  | skipped
  | alreadyPresent
  | failed
  | saved
deriving DecidableEq

/-- The boolean the source actually returns for each outcome: saved and
alreadyPresent count as success. -/
def DownloadOutcome.toBool : DownloadOutcome → Bool
  | .alreadyPresent => true
  | .saved => true
  | _ => false

/-- The filename-derivation pipeline of download_image: basename of the
parsed path, the emptiness and root-marker checks, the query and fragment
stripping, and sanitization.  none models the early False returns. -/
def imageFileName (env : Env) (url : String) : Option String :=
  let a := env.urlparse url
  let img_name := basename a.path
  if img_name = "" ∨ img_name = "/" then none
  else
    let img_name2 := splitHead (splitHead img_name '?') '#'
    if img_name2 = "" then none
    else
      let sanitized_name := sanitize_filename img_name2
      if sanitized_name = "" then none else some sanitized_name

/-- The download_image procedure from the source, as a function of the filesystem state
(the list of existing paths).  Returns the outcome, the new filesystem
state, and the number of network fetches performed.  The streamed write is
modelled as adding the target path to the filesystem; the IOError branch
of a failing write is not exercised by the claims and the write capability
is assumed reliable. -/
def download_image (env : Env) (url output_folder : String) (fs : List String) :
    DownloadOutcome × List String × Nat :=
  match imageFileName env url with
  | none => (.skipped, fs, 0)
  | some sanitized_name =>
    let file_path := pathJoin output_folder sanitized_name
    if file_path ∈ fs then (.alreadyPresent, fs, 0)
    else
      match env.imgFetch url with
      | .failure => (.failed, fs, 1)
      | .success contentType =>
        match contentType with
        | none => (.skipped, fs, 1)
        | some ct =>
          if ct = "" ∨ isImageContentType ct = false then (.skipped, fs, 1)
          else (.saved, file_path :: fs, 1)

/-- The attribute selection for an img element:
img.get(data-src) or img.get(data-lazyload) or img.get(src). -/
def imgCandidate (i : Img) : Option String :=
  pyOr i.dataSrc (pyOr i.dataLazyload i.src)

/-- The body of the image loop of crawl_site: skip falsy candidates and
inline-data URLs, otherwise resolve against the current page and add to
the accumulated set. -/
def imgStep (env : Env) (current_url : String) (acc : List String) (i : Img) :
    List String :=
  match imgCandidate i with
  | none => acc
  | some img_url =>
    if img_url = "" ∨ strStartsWith img_url "data:" = true then acc
    else addSet acc (env.urljoin current_url img_url)

/-- The image loop of crawl_site for one page. -/
def collectImages (env : Env) (current_url : String) (imgs : List Img)
    (acc : List String) : List String :=
  imgs.foldl (imgStep env current_url) acc

/-- The link loop of crawl_site for one page: resolve each href against
the current page, keep those on the crawl domain, without a fragment
character, and not in the visited set. -/
def newLinks (env : Env) (domain_name current_url : String) (visited : List String)
    (anchors : List String) : List String :=
  (anchors.map (fun href => env.urljoin current_url href)).filter
    (fun u => decide ((env.urlparse u).netloc = domain_name ∧
      '#' ∉ u.toList ∧ u ∉ visited))

/-- The mutable state of the crawl loop, plus two logs: every call of
requests.get on a page, with its depth, and every pair ever placed on the
frontier, the seed included. -/
structure CrawlState where
  to_visit : List (String × Nat)
  visited : List String
  all_image_urls : List String
  fetchLog : List (String × Nat)
  enqueueLog : List (String × Nat)
deriving DecidableEq

/-- One iteration of the while loop of crawl_site: pop the head of the
frontier, skip it when already visited or too deep, mark it visited,
fetch it, and on success collect its images and, below the depth limit,
append its admissible links. -/
def crawlStep (env : Env) (domain_name : String) (max_depth : Int)
    (s : CrawlState) : CrawlState :=
  match s.to_visit with
  | [] => s
  | (current_url, depth) :: rest =>
    if current_url ∈ s.visited ∨ (depth : Int) > max_depth then
      { s with to_visit := rest }
    else
      let visited' := addSet s.visited current_url
      let log' := s.fetchLog ++ [(current_url, depth)]
      match env.fetchPage current_url with
      | .failure =>
        { s with to_visit := rest, visited := visited', fetchLog := log' }
      | .success page =>
        let images' := collectImages env current_url page.imgs s.all_image_urls
        let links :=
          if (depth : Int) < max_depth then
            (newLinks env domain_name current_url visited' page.anchors).map
              (fun u => (u, depth + 1))
          else []
        { to_visit := rest ++ links, visited := visited',
          all_image_urls := images', fetchLog := log',
          enqueueLog := s.enqueueLog ++ links }

/-- Fuel-bounded iteration of the crawl loop. -/
def crawlIter (env : Env) (domain_name : String) (max_depth : Int) :
    Nat → CrawlState → CrawlState
  | 0, s => s
  | n + 1, s => crawlIter env domain_name max_depth n (crawlStep env domain_name max_depth s)

/-- The initial state of crawl_site: the frontier holds the seed at depth
zero, and the visited and image sets are empty. -/
def initState (base_url : String) : CrawlState :=
  { to_visit := [(base_url, 0)], visited := [], all_image_urls := [],
    fetchLog := [], enqueueLog := [(base_url, 0)] }

/-- The crawl_site driver from the source: compute the domain of the seed
and run the loop, bounded by fuel. -/
def crawl_site (env : Env) (base_url : String) (max_depth : Int) (fuel : Nat) :
    CrawlState :=
  crawlIter env (env.urlparse base_url).netloc max_depth fuel (initState base_url)

/-- A concrete page used to exercise the crawl loop: one lazy-loaded
image and two anchors pointing at the same target. -/
def pageA : Page :=
  { imgs := [{ dataSrc := some "x.jpg", dataLazyload := none, src := some "y.jpg" }],
    anchors := ["a", "a"] }

/-- A concrete environment in which every URL parses to the crawl domain,
resolution returns the href unchanged, and every page is pageA. -/
def envA : Env :=
  { urlparse := fun _ => { netloc := "d", path := "/a.png" },
    urljoin := fun _ href => href,
    fetchPage := fun _ => .success pageA,
    imgFetch := fun _ => .success (some "image/png") }

/-- A concrete environment in which the URL b parses to a foreign domain. -/
def envB : Env :=
  { urlparse := fun u =>
      if u = "b" then { netloc := "other", path := "" }
      else { netloc := "d", path := "" },
    urljoin := fun _ href => href,
    fetchPage := fun u => if u = "s" then .success { imgs := [], anchors := ["b"] } else .failure,
    imgFetch := fun _ => .failure }

/-- A concrete environment in which every page fetch fails. -/
def envFail : Env :=
  { urlparse := fun _ => { netloc := "d", path := "" },
    urljoin := fun _ href => href,
    fetchPage := fun _ => .failure,
    imgFetch := fun _ => .failure }

/-- A concrete environment in which an image fetch succeeds but declares
a non-image content type. -/
def envHtml : Env :=
  { urlparse := fun _ => { netloc := "d", path := "/a.png" },
    urljoin := fun _ href => href,
    fetchPage := fun _ => .failure,
    imgFetch := fun _ => .success (some "text/html") }

/-! Basic lemmas about the set model. -/

theorem mem_addSet {l : List String} {x y : String} :
    y ∈ addSet l x ↔ y = x ∨ y ∈ l := by
  unfold addSet
  split
  next h => exact ⟨fun hy => Or.inr hy, fun hy => hy.elim (fun e => e ▸ h) id⟩
  next h => simp [List.mem_cons]

theorem subset_addSet (l : List String) (x : String) : l ⊆ addSet l x :=
  fun _ hy => mem_addSet.mpr (Or.inr hy)

theorem mem_addSet_self (l : List String) (x : String) : x ∈ addSet l x :=
  mem_addSet.mpr (Or.inl rfl)

/-! Lemmas about the sanitizer. -/

theorem mem_sanitizeChars {l : List Char} {c : Char} (h : c ∈ sanitizeChars l) :
    c ∉ illegalChars ∧ c ≠ ' ' := by
  simp only [sanitizeChars] at h
  have h2 : c ∈ (l.filter (fun c => decide (c ∉ illegalChars))).map
      (fun c => if c = ' ' then '_' else c) := by
    split at h
    · exact List.take_subset _ _ h
    · exact h
  rcases List.mem_map.mp h2 with ⟨b, hb, hbc⟩
  rcases List.mem_filter.mp hb with ⟨_, hbp⟩
  have hbill : b ∉ illegalChars := of_decide_eq_true hbp
  by_cases hsp : b = ' '
  · subst hsp
    rw [if_pos rfl] at hbc
    subst hbc
    exact ⟨by decide, by decide⟩
  · rw [if_neg hsp] at hbc
    subst hbc
    exact ⟨hbill, hsp⟩

theorem sanitizeChars_length (l : List Char) : (sanitizeChars l).length ≤ 200 := by
  simp only [sanitizeChars]
  split
  next h => simp [List.length_take]
  next h => omega

theorem sanitizeChars_of_clean {m : List Char}
    (h1 : ∀ c ∈ m, c ∉ illegalChars ∧ c ≠ ' ') (h2 : m.length ≤ 200) :
    sanitizeChars m = m := by
  have hfil : m.filter (fun c => decide (c ∉ illegalChars)) = m :=
    List.filter_eq_self.mpr (fun c hc => decide_eq_true (h1 c hc).1)
  have hmap : m.map (fun c => if c = ' ' then '_' else c) = m := by
    have hcg : m.map (fun c => if c = ' ' then '_' else c) = m.map id :=
      List.map_congr_left (fun c hc => if_neg (h1 c hc).2)
    simpa using hcg
  simp only [sanitizeChars, hfil, hmap]
  rw [if_neg (by omega)]

theorem sanitizeChars_idem (l : List Char) :
    sanitizeChars (sanitizeChars l) = sanitizeChars l :=
  sanitizeChars_of_clean (fun _ hc => mem_sanitizeChars hc) (sanitizeChars_length l)

/-- Claim C8: sanitize_filename is idempotent, its output never exceeds
200 characters, and its output contains none of the characters of the
illegal class and no spaces. -/
theorem sanitize_filename_ok (s : String) :
    sanitize_filename (sanitize_filename s) = sanitize_filename s ∧
    (sanitize_filename s).length ≤ 200 ∧
    ∀ c ∈ (sanitize_filename s).toList, c ∉ illegalChars ∧ c ≠ ' ' := by
  by_cases hs : s = ""
  · subst hs
    refine ⟨rfl, by decide, ?_⟩
    intro c hc
    simp [sanitize_filename] at hc
  · have hsf : sanitize_filename s = String.mk (sanitizeChars s.toList) := by
      rw [sanitize_filename, if_neg hs]
    refine ⟨?_, ?_, ?_⟩
    · rw [hsf]
      by_cases hmk : String.mk (sanitizeChars s.toList) = ""
      · rw [sanitize_filename, if_pos hmk]
        exact hmk.symm
      · rw [sanitize_filename, if_neg hmk]
        exact congrArg String.mk (sanitizeChars_idem s.toList)
    · rw [hsf]
      exact sanitizeChars_length s.toList
    · rw [hsf]
      intro c hc
      exact mem_sanitizeChars hc

/-- Witness for claim C8, at the input with a space, a slash and letters. -/
theorem sanitize_filename_ok_witness :
    sanitize_filename (sanitize_filename "a b/c") = sanitize_filename "a b/c" ∧
    (sanitize_filename "a b/c").length ≤ 200 ∧
    ('a' ∉ illegalChars ∧ 'a' ≠ ' ') :=
  ⟨(sanitize_filename_ok "a b/c").1, (sanitize_filename_ok "a b/c").2.1,
   (sanitize_filename_ok "a b/c").2.2 'a' (by decide)⟩

/-! Equation lemmas for one iteration of the crawl loop. -/

theorem crawlStep_nil (env : Env) (dom : String) (md : Int) (s : CrawlState)
    (h : s.to_visit = []) : crawlStep env dom md s = s := by
  unfold crawlStep
  rw [h]

theorem crawlStep_skip (env : Env) (dom : String) (md : Int) (s : CrawlState)
    (cur : String) (d : Nat) (rest : List (String × Nat))
    (h : s.to_visit = (cur, d) :: rest)
    (hg : cur ∈ s.visited ∨ (d : Int) > md) :
    crawlStep env dom md s = { s with to_visit := rest } := by
  unfold crawlStep
  rw [h]
  dsimp only
  rw [if_pos hg]

theorem crawlStep_fail (env : Env) (dom : String) (md : Int) (s : CrawlState)
    (cur : String) (d : Nat) (rest : List (String × Nat))
    (h : s.to_visit = (cur, d) :: rest)
    (hg : ¬ (cur ∈ s.visited ∨ (d : Int) > md))
    (hf : env.fetchPage cur = .failure) :
    crawlStep env dom md s =
      { s with to_visit := rest, visited := addSet s.visited cur,
               fetchLog := s.fetchLog ++ [(cur, d)] } := by
  unfold crawlStep
  rw [h]
  dsimp only
  rw [if_neg hg, hf]

theorem crawlStep_success (env : Env) (dom : String) (md : Int) (s : CrawlState)
    (cur : String) (d : Nat) (rest : List (String × Nat)) (page : Page)
    (h : s.to_visit = (cur, d) :: rest)
    (hg : ¬ (cur ∈ s.visited ∨ (d : Int) > md))
    (hf : env.fetchPage cur = .success page) :
    crawlStep env dom md s =
      { to_visit := rest ++ (if (d : Int) < md then
            (newLinks env dom cur (addSet s.visited cur) page.anchors).map
              (fun u => (u, d + 1)) else []),
        visited := addSet s.visited cur,
        all_image_urls := collectImages env cur page.imgs s.all_image_urls,
        fetchLog := s.fetchLog ++ [(cur, d)],
        enqueueLog := s.enqueueLog ++ (if (d : Int) < md then
            (newLinks env dom cur (addSet s.visited cur) page.anchors).map
              (fun u => (u, d + 1)) else []) } := by
  unfold crawlStep
  rw [h]
  dsimp only
  rw [if_neg hg, hf]

/-- Case eliminator for one crawl iteration: any property of the state
after a step follows from its four possible shapes. -/
theorem crawlStep_cases (env : Env) (dom : String) (md : Int) (s : CrawlState)
    (P : CrawlState → Prop)
    (h1 : s.to_visit = [] → P s)
    (h2 : ∀ cur d rest, s.to_visit = (cur, d) :: rest →
      (cur ∈ s.visited ∨ (d : Int) > md) → P { s with to_visit := rest })
    (h3 : ∀ cur d rest, s.to_visit = (cur, d) :: rest →
      ¬ (cur ∈ s.visited ∨ (d : Int) > md) → env.fetchPage cur = .failure →
      P { s with
            to_visit := rest,
            visited := addSet s.visited cur,
            fetchLog := s.fetchLog ++ [(cur, d)] })
    (h4 : ∀ cur d rest page, s.to_visit = (cur, d) :: rest →
      ¬ (cur ∈ s.visited ∨ (d : Int) > md) → env.fetchPage cur = .success page →
      P { to_visit := rest ++ (if (d : Int) < md then
            (newLinks env dom cur (addSet s.visited cur) page.anchors).map
              (fun u => (u, d + 1)) else []),
          visited := addSet s.visited cur,
          all_image_urls := collectImages env cur page.imgs s.all_image_urls,
          fetchLog := s.fetchLog ++ [(cur, d)],
          enqueueLog := s.enqueueLog ++ (if (d : Int) < md then
            (newLinks env dom cur (addSet s.visited cur) page.anchors).map
              (fun u => (u, d + 1)) else []) }) :
    P (crawlStep env dom md s) := by
  rcases hs : s.to_visit with _ | ⟨⟨cur, d⟩, rest⟩
  · rw [crawlStep_nil env dom md s hs]
    exact h1 hs
  · by_cases hg : cur ∈ s.visited ∨ (d : Int) > md
    · rw [crawlStep_skip env dom md s cur d rest hs hg]
      exact h2 cur d rest hs hg
    · rcases hf : env.fetchPage cur with _ | page
      · rw [crawlStep_fail env dom md s cur d rest hs hg hf]
        exact h3 cur d rest hs hg hf
      · rw [crawlStep_success env dom md s cur d rest page hs hg hf]
        exact h4 cur d rest page hs hg hf

/-- Invariant preservation lifts from one step to the iterated loop. -/
theorem crawlIter_inv (env : Env) (dom : String) (md : Int) (P : CrawlState → Prop)
    (hstep : ∀ s, P s → P (crawlStep env dom md s)) :
    ∀ n s, P s → P (crawlIter env dom md n s) := by
  intro n
  induction n with
  | zero => exact fun _ h => h
  | succ n ih => exact fun s h => ih _ (hstep s h)

/-! Membership lemmas for the link and image loops. -/

theorem of_mem_newLinks {env : Env} {dom cur : String} {visited anchors : List String}
    {u : String} (h : u ∈ newLinks env dom cur visited anchors) :
    (env.urlparse u).netloc = dom ∧ '#' ∉ u.toList ∧ u ∉ visited :=
  of_decide_eq_true (List.mem_filter.mp h).2

theorem mem_imgStep_of_mem {env : Env} {cur : String} {acc : List String} {i : Img}
    {u : String} (h : u ∈ acc) : u ∈ imgStep env cur acc i := by
  unfold imgStep
  rcases imgCandidate i with _ | img_url
  · exact h
  · dsimp only
    split
    · exact h
    · exact subset_addSet _ _ h

theorem imgStep_adds {env : Env} {cur : String} {acc : List String} {i : Img}
    {x : String} (hc : imgCandidate i = some x) (hne : x ≠ "")
    (hdata : strStartsWith x "data:" = false) :
    env.urljoin cur x ∈ imgStep env cur acc i := by
  unfold imgStep
  rw [hc]
  dsimp only
  rw [if_neg (by simp [hne, hdata])]
  exact mem_addSet_self _ _

theorem mem_collectImages_of_mem {env : Env} {cur : String} {imgs : List Img}
    {acc : List String} {u : String} (h : u ∈ acc) :
    u ∈ collectImages env cur imgs acc := by
  induction imgs generalizing acc with
  | nil => exact h
  | cons i tl ih => exact ih (mem_imgStep_of_mem h)

theorem collectImages_adds {env : Env} {cur : String} {imgs : List Img}
    {acc : List String} {i : Img} {x : String}
    (hi : i ∈ imgs) (hc : imgCandidate i = some x) (hne : x ≠ "")
    (hdata : strStartsWith x "data:" = false) :
    env.urljoin cur x ∈ collectImages env cur imgs acc := by
  induction imgs generalizing acc with
  | nil => cases hi
  | cons j tl ih =>
    rcases List.mem_cons.mp hi with hj | hj
    · subst hj
      show env.urljoin cur x ∈ collectImages env cur tl (imgStep env cur acc i)
      exact mem_collectImages_of_mem (imgStep_adds hc hne hdata)
    · exact ih hj

/-! Invariants of the crawl loop. -/

theorem nodup_append_singleton {α : Type} {l : List α} {a : α}
    (h : l.Nodup) (ha : a ∉ l) : (l ++ [a]).Nodup := by
  rw [List.nodup_append]
  exact ⟨h, List.nodup_singleton a, by simpa [List.disjoint_singleton] using ha⟩

theorem fetch_inv_extend {log : List (String × Nat)} {visited : List String}
    {cur : String} {d : Nat}
    (h1 : (log.map Prod.fst).Nodup) (h2 : ∀ u ∈ log.map Prod.fst, u ∈ visited)
    (hcur : cur ∉ visited) :
    (((log ++ [(cur, d)]).map Prod.fst).Nodup) ∧
      ∀ u ∈ (log ++ [(cur, d)]).map Prod.fst, u ∈ addSet visited cur := by
  rw [List.map_append]
  constructor
  · exact nodup_append_singleton h1 (fun hc => hcur (h2 _ hc))
  · intro u hu
    rcases List.mem_append.mp hu with hu | hu
    · exact subset_addSet _ _ (h2 _ hu)
    · have : u = cur := by simpa using hu
      subst this
      exact mem_addSet_self _ _

theorem crawlStep_fetch_inv (env : Env) (dom : String) (md : Int) (s : CrawlState)
    (h : ((s.fetchLog.map Prod.fst).Nodup) ∧
      ∀ u ∈ s.fetchLog.map Prod.fst, u ∈ s.visited) :
    (((crawlStep env dom md s).fetchLog.map Prod.fst).Nodup) ∧
      ∀ u ∈ (crawlStep env dom md s).fetchLog.map Prod.fst,
        u ∈ (crawlStep env dom md s).visited := by
  refine crawlStep_cases env dom md s
    (fun t => ((t.fetchLog.map Prod.fst).Nodup) ∧
      ∀ u ∈ t.fetchLog.map Prod.fst, u ∈ t.visited) ?_ ?_ ?_ ?_
  · intro _; exact h
  · intro _ _ _ _ _; exact h
  · intro cur d rest _ hg _
    exact fetch_inv_extend h.1 h.2 (fun hc => hg (Or.inl hc))
  · intro cur d rest page _ hg _
    exact fetch_inv_extend h.1 h.2 (fun hc => hg (Or.inl hc))

/-- Across a whole crawl, the URLs passed to the page fetch are pairwise
distinct. -/
theorem crawl_site_fetch_nodup (env : Env) (base_url : String) (max_depth : Int)
    (fuel : Nat) :
    ((crawl_site env base_url max_depth fuel).fetchLog.map Prod.fst).Nodup := by
  have h := crawlIter_inv env (env.urlparse base_url).netloc max_depth
    (fun s => ((s.fetchLog.map Prod.fst).Nodup) ∧
      ∀ u ∈ s.fetchLog.map Prod.fst, u ∈ s.visited)
    (fun s hs => crawlStep_fetch_inv env _ max_depth s hs)
    fuel (initState base_url) (by simp [initState])
  exact h.1

theorem crawlStep_fetch_depth (env : Env) (dom : String) (md : Int) (s : CrawlState)
    (h : ∀ p ∈ s.fetchLog, (p.2 : Int) ≤ md) :
    ∀ p ∈ (crawlStep env dom md s).fetchLog, (p.2 : Int) ≤ md := by
  refine crawlStep_cases env dom md s
    (fun t => ∀ p ∈ t.fetchLog, (p.2 : Int) ≤ md) ?_ ?_ ?_ ?_
  · intro _; exact h
  · intro _ _ _ _ _; exact h
  · intro cur d rest _ hg _ p hp
    rcases List.mem_append.mp hp with hp | hp
    · exact h p hp
    · have : p = (cur, d) := by simpa using hp
      subst this
      have hd := not_or.mp hg
      simp only
      omega
  · intro cur d rest page _ hg _ p hp
    rcases List.mem_append.mp hp with hp | hp
    · exact h p hp
    · have : p = (cur, d) := by simpa using hp
      subst this
      have hd := not_or.mp hg
      simp only
      omega

theorem crawlStep_enqueue_prop (env : Env) (dom : String) (md : Int) (s : CrawlState)
    (seed : String × Nat)
    (h : ∀ q ∈ s.enqueueLog,
      q = seed ∨ ((env.urlparse q.1).netloc = dom ∧ '#' ∉ q.1.toList)) :
    ∀ q ∈ (crawlStep env dom md s).enqueueLog,
      q = seed ∨ ((env.urlparse q.1).netloc = dom ∧ '#' ∉ q.1.toList) := by
  refine crawlStep_cases env dom md s
    (fun t => ∀ q ∈ t.enqueueLog,
      q = seed ∨ ((env.urlparse q.1).netloc = dom ∧ '#' ∉ q.1.toList)) ?_ ?_ ?_ ?_
  · intro _; exact h
  · intro _ _ _ _ _; exact h
  · intro _ _ _ _ _ _; exact h
  · intro cur d rest page _ _ _ q hq
    rcases List.mem_append.mp hq with hq | hq
    · exact h q hq
    · right
      split at hq
      · rcases List.mem_map.mp hq with ⟨u, hu, rfl⟩
        have hp := of_mem_newLinks hu
        exact ⟨hp.1, hp.2.1⟩
      · cases hq

theorem crawlStep_frontier_sub (env : Env) (dom : String) (md : Int) (s : CrawlState)
    (h : ∀ q ∈ s.to_visit, q ∈ s.enqueueLog) :
    ∀ q ∈ (crawlStep env dom md s).to_visit, q ∈ (crawlStep env dom md s).enqueueLog := by
  refine crawlStep_cases env dom md s
    (fun t => ∀ q ∈ t.to_visit, q ∈ t.enqueueLog) ?_ ?_ ?_ ?_
  · intro _; exact h
  · intro cur d rest hs _ q hq
    refine h q ?_
    rw [hs]
    exact List.mem_cons_of_mem _ hq
  · intro cur d rest hs _ _ q hq
    refine h q ?_
    rw [hs]
    exact List.mem_cons_of_mem _ hq
  · intro cur d rest page hs _ _ q hq
    rcases List.mem_append.mp hq with hq | hq
    · refine List.mem_append.mpr (Or.inl (h q ?_))
      rw [hs]
      exact List.mem_cons_of_mem _ hq
    · exact List.mem_append.mpr (Or.inr hq)

/-! The claims about the crawl loop. -/

/-- Claim C2: during any crawl no page address is fetched more than once:
the sequence of URLs passed to the page fetch is duplicate-free, because
the visited-set membership test gates every fetch. -/
theorem no_page_fetched_twice (env : Env) (base_url : String) (max_depth : Int)
    (fuel : Nat) :
    ((crawl_site env base_url max_depth fuel).fetchLog.map Prod.fst).Nodup :=
  crawl_site_fetch_nodup env base_url max_depth fuel

/-- Claim C4: a hyperlink whose resolved absolute URL has a
network-location different from that of the seed is never placed on the
frontier, at any depth: it appears neither in the enqueue log nor on the
frontier itself. -/
theorem foreign_domain_never_enqueued (env : Env) (base_url : String)
    (max_depth : Int) (fuel : Nat) (u : String) (d : Nat)
    (hne : (env.urlparse u).netloc ≠ (env.urlparse base_url).netloc) :
    (u, d) ∉ (crawl_site env base_url max_depth fuel).enqueueLog ∧
    (u, d) ∉ (crawl_site env base_url max_depth fuel).to_visit := by
  have hinv := crawlIter_inv env (env.urlparse base_url).netloc max_depth
    (fun s => ∀ q ∈ s.enqueueLog, q = (base_url, 0) ∨
      ((env.urlparse q.1).netloc = (env.urlparse base_url).netloc ∧ '#' ∉ q.1.toList))
    (fun s hs => crawlStep_enqueue_prop env _ max_depth s (base_url, 0) hs)
    fuel (initState base_url)
    (by intro q hq; left; simpa [initState] using hq)
  have hsub := crawlIter_inv env (env.urlparse base_url).netloc max_depth
    (fun s => ∀ q ∈ s.to_visit, q ∈ s.enqueueLog)
    (fun s hs => crawlStep_frontier_sub env _ max_depth s hs)
    fuel (initState base_url)
    (by intro q hq; simpa [initState] using hq)
  have hq1 : (u, d) ∉ (crawl_site env base_url max_depth fuel).enqueueLog := by
    intro hmem
    rcases hinv (u, d) hmem with heq | hprop
    · cases heq
      exact hne rfl
    · exact hne hprop.1
  exact ⟨hq1, fun hm => hq1 (hsub (u, d) hm)⟩

/-- Witness for claim C4: in envB the address b resolves to a foreign
network-location and never reaches the frontier. -/
theorem foreign_domain_never_enqueued_witness :
    ("b", 1) ∉ (crawl_site envB "s" 1 2).enqueueLog ∧
    ("b", 1) ∉ (crawl_site envB "s" 1 2).to_visit :=
  foreign_domain_never_enqueued envB "s" 1 2 "b" 1 (by decide)

/-- Claim C9: a resolved link containing the fragment character anywhere
in the string is never placed on the frontier (the seed entry being the
only frontier entry that is not an appended link). -/
theorem fragment_link_never_enqueued (env : Env) (base_url : String)
    (max_depth : Int) (fuel : Nat) (u : String) (d : Nat)
    (hfrag : '#' ∈ u.toList) (hseed : (u, d) ≠ (base_url, 0)) :
    (u, d) ∉ (crawl_site env base_url max_depth fuel).enqueueLog ∧
    (u, d) ∉ (crawl_site env base_url max_depth fuel).to_visit := by
  have hinv := crawlIter_inv env (env.urlparse base_url).netloc max_depth
    (fun s => ∀ q ∈ s.enqueueLog, q = (base_url, 0) ∨
      ((env.urlparse q.1).netloc = (env.urlparse base_url).netloc ∧ '#' ∉ q.1.toList))
    (fun s hs => crawlStep_enqueue_prop env _ max_depth s (base_url, 0) hs)
    fuel (initState base_url)
    (by intro q hq; left; simpa [initState] using hq)
  have hsub := crawlIter_inv env (env.urlparse base_url).netloc max_depth
    (fun s => ∀ q ∈ s.to_visit, q ∈ s.enqueueLog)
    (fun s hs => crawlStep_frontier_sub env _ max_depth s hs)
    fuel (initState base_url)
    (by intro q hq; simpa [initState] using hq)
  have hq1 : (u, d) ∉ (crawl_site env base_url max_depth fuel).enqueueLog := by
    intro hmem
    rcases hinv (u, d) hmem with heq | hprop
    · exact hseed heq
    · exact hprop.2 hfrag
  exact ⟨hq1, fun hm => hq1 (hsub (u, d) hm)⟩

/-- Witness for claim C9: an address containing the fragment character
never reaches the frontier of a concrete crawl. -/
theorem fragment_link_never_enqueued_witness :
    ("p#q", 1) ∉ (crawl_site envA "s" 1 1).enqueueLog ∧
    ("p#q", 1) ∉ (crawl_site envA "s" 1 1).to_visit :=
  fragment_link_never_enqueued envA "s" 1 1 "p#q" 1 (by decide) (by decide)

/-- Claim C3: with a non-negative depth bound, the seed starts at depth
zero; no page at depth greater than the bound is ever fetched; every
frontier entry appended while processing a page at depth d carries depth
d + 1; and images on a page at exactly the maximal depth are still
collected, since only link-following is depth-gated. -/
theorem depth_gating (env : Env) (base_url : String) (max_depth : Int) (fuel : Nat)
    (_hmd : 0 ≤ max_depth) :
    (initState base_url).to_visit = [(base_url, 0)] ∧
    (∀ p ∈ (crawl_site env base_url max_depth fuel).fetchLog, (p.2 : Int) ≤ max_depth) ∧
    (∀ s : CrawlState, ∀ cur : String, ∀ d : Nat, ∀ rest : List (String × Nat),
      s.to_visit = (cur, d) :: rest →
      ∀ q ∈ (crawlStep env (env.urlparse base_url).netloc max_depth s).to_visit,
        q ∈ rest ∨ q.2 = d + 1) ∧
    (∀ s : CrawlState, ∀ cur : String, ∀ d : Nat, ∀ rest : List (String × Nat),
      ∀ page : Page,
      s.to_visit = (cur, d) :: rest → cur ∉ s.visited → (d : Int) = max_depth →
      env.fetchPage cur = .success page →
      ∀ i ∈ page.imgs, ∀ x : String, imgCandidate i = some x → x ≠ "" →
        strStartsWith x "data:" = false →
        env.urljoin cur x ∈
          (crawlStep env (env.urlparse base_url).netloc max_depth s).all_image_urls) := by
  refine ⟨rfl, ?_, ?_, ?_⟩
  · exact crawlIter_inv env (env.urlparse base_url).netloc max_depth
      (fun s => ∀ p ∈ s.fetchLog, (p.2 : Int) ≤ max_depth)
      (fun s hs => crawlStep_fetch_depth env _ max_depth s hs)
      fuel (initState base_url) (by simp [initState])
  · intro s cur d rest hs
    refine crawlStep_cases env (env.urlparse base_url).netloc max_depth s
      (fun t => ∀ q ∈ t.to_visit, q ∈ rest ∨ q.2 = d + 1) ?_ ?_ ?_ ?_
    · intro h0
      rw [hs] at h0
      cases h0
    · intro cur2 d2 rest2 hs2 _ q hq
      rw [hs] at hs2
      injection hs2 with h1 h2
      subst h2
      exact Or.inl hq
    · intro cur2 d2 rest2 hs2 _ _ q hq
      rw [hs] at hs2
      injection hs2 with h1 h2
      subst h2
      exact Or.inl hq
    · intro cur2 d2 rest2 page hs2 _ _ q hq
      rw [hs] at hs2
      injection hs2 with h1 h2
      injection h1 with e1 e2
      subst e1
      subst e2
      subst h2
      rcases List.mem_append.mp hq with hq | hq
      · exact Or.inl hq
      · right
        split at hq
        · rcases List.mem_map.mp hq with ⟨v, _, rfl⟩
          rfl
        · cases hq
  · intro s cur d rest page hs hv hd hfetch i hi x hc hne hdata
    have hg : ¬ (cur ∈ s.visited ∨ (d : Int) > max_depth) := by
      rintro (h | h)
      · exact hv h
      · omega
    rw [crawlStep_success env (env.urlparse base_url).netloc max_depth s cur d rest
      page hs hg hfetch]
    exact collectImages_adds hi hc hne hdata

/-- Witness for claim C3: in envA with depth bound one, the seed fetch at
depth zero respects the bound, the links found on the seed page are
enqueued at depth one, and a page popped at the maximal depth still
contributes its image. -/
theorem depth_gating_witness :
    (initState "s").to_visit = [("s", 0)] ∧
    ((("s", 0).2 : Int) ≤ 1) ∧
    (("a", 1) ∈ ([] : List (String × Nat)) ∨ ("a", 1).2 = 0 + 1) ∧
    envA.urljoin "a" "x.jpg" ∈
      (crawlStep envA (envA.urlparse "s").netloc 1 (crawl_site envA "s" 1 1)).all_image_urls := by
  refine ⟨(depth_gating envA "s" 1 2 (by decide)).1, ?_, ?_, ?_⟩
  · exact (depth_gating envA "s" 1 2 (by decide)).2.1 ("s", 0) (by decide)
  · exact (depth_gating envA "s" 1 2 (by decide)).2.2.1 (initState "s") "s" 0 [] rfl
      ("a", 1) (by decide)
  · exact (depth_gating envA "s" 1 2 (by decide)).2.2.2 (crawl_site envA "s" 1 1)
      "a" 1 [("a", 1)] pageA (by decide) (by decide) (by decide) (by decide)
      ⟨some "x.jpg", none, some "y.jpg"⟩ (by decide) "x.jpg" (by decide) (by decide)
      (by decide)

/-- Claim C5: when the fetch of a popped page fails, the page contributes
no images and no frontier entries, the loop simply proceeds to the next
frontier entry, and the rest of the crawl continues as the crawl of the
remaining pages. -/
theorem page_fetch_failure_isolated (env : Env) (dom : String) (max_depth : Int)
    (n : Nat) (s : CrawlState) (cur : String) (d : Nat) (rest : List (String × Nat))
    (hs : s.to_visit = (cur, d) :: rest) (hv : cur ∉ s.visited)
    (hd : ¬ ((d : Int) > max_depth)) (hf : env.fetchPage cur = .failure) :
    crawlStep env dom max_depth s =
      { s with
          to_visit := rest,
          visited := addSet s.visited cur,
          fetchLog := s.fetchLog ++ [(cur, d)] } ∧
    (crawlStep env dom max_depth s).all_image_urls = s.all_image_urls ∧
    (crawlStep env dom max_depth s).enqueueLog = s.enqueueLog ∧
    crawlIter env dom max_depth (n + 1) s =
      crawlIter env dom max_depth n (crawlStep env dom max_depth s) := by
  have he := crawlStep_fail env dom max_depth s cur d rest hs
    (fun hor => hor.elim hv hd) hf
  exact ⟨he, by rw [he], by rw [he], rfl⟩

/-- Witness for claim C5: in the environment where every fetch fails, the
seed page is popped, contributes nothing, and the loop goes on. -/
theorem page_fetch_failure_isolated_witness :
    crawlStep envFail "d" 1 (initState "s") =
      { initState "s" with
          to_visit := [],
          visited := addSet (initState "s").visited "s",
          fetchLog := (initState "s").fetchLog ++ [("s", 0)] } ∧
    (crawlStep envFail "d" 1 (initState "s")).all_image_urls =
      (initState "s").all_image_urls ∧
    (crawlStep envFail "d" 1 (initState "s")).enqueueLog =
      (initState "s").enqueueLog ∧
    crawlIter envFail "d" 1 (0 + 1) (initState "s") =
      crawlIter envFail "d" 1 0 (crawlStep envFail "d" 1 (initState "s")) :=
  page_fetch_failure_isolated envFail "d" 1 0 (initState "s") "s" 0 [] rfl
    (by decide) (by decide) rfl

/-- Claim C10: the image URL of an element is the first attribute with a
non-empty value in the order data-src, data-lazyload, src; an empty value
falls through to the next attribute exactly as an absent one; and when
data-src is non-empty the address collected during the crawl step
resolves from data-src, whatever src says. -/
theorem img_attr_preference (env : Env) (dom : String) (max_depth : Int)
    (s : CrawlState) (cur : String) (d : Nat) (rest : List (String × Nat))
    (page : Page)
    (hs : s.to_visit = (cur, d) :: rest)
    (hv : cur ∉ s.visited) (hd : ¬ ((d : Int) > max_depth))
    (hfetch : env.fetchPage cur = .success page) :
    (∀ i : Img, ∀ x : String, i.dataSrc = some x → x ≠ "" → imgCandidate i = some x) ∧
    (∀ lz sr : Option String,
      imgCandidate ⟨some "", lz, sr⟩ = imgCandidate ⟨none, lz, sr⟩) ∧
    (∀ i : Img, ∀ x : String, (i.dataSrc = none ∨ i.dataSrc = some "") →
      i.dataLazyload = some x → x ≠ "" → imgCandidate i = some x) ∧
    (∀ i : Img, (i.dataSrc = none ∨ i.dataSrc = some "") →
      (i.dataLazyload = none ∨ i.dataLazyload = some "") → imgCandidate i = i.src) ∧
    (∀ i ∈ page.imgs, ∀ x : String, i.dataSrc = some x → x ≠ "" →
      strStartsWith x "data:" = false →
      env.urljoin cur x ∈ (crawlStep env dom max_depth s).all_image_urls) := by
  refine ⟨?_, ?_, ?_, ?_, ?_⟩
  · intro i x hds hne
    simp [imgCandidate, pyOr, hds, hne]
  · intro lz sr
    rfl
  · intro i x h0 hlz hne
    rcases h0 with h0 | h0 <;> simp [imgCandidate, pyOr, h0, hlz, hne]
  · intro i h0 h1
    rcases h0 with h0 | h0 <;> rcases h1 with h1 | h1 <;>
      simp [imgCandidate, pyOr, h0, h1]
  · intro i hi x hds hne hdata
    have hc : imgCandidate i = some x := by
      simp [imgCandidate, pyOr, hds, hne]
    have hg : ¬ (cur ∈ s.visited ∨ (d : Int) > max_depth) := by
      rintro (h | h)
      · exact hv h
      · exact hd h
    rw [crawlStep_success env dom max_depth s cur d rest page hs hg hfetch]
    exact collectImages_adds hi hc hne hdata

/-- Witness for claim C10: on pageA, whose image element carries both
data-src and src, the collected address comes from data-src. -/
theorem img_attr_preference_witness :
    imgCandidate ⟨some "x.jpg", none, some "y.jpg"⟩ = some "x.jpg" ∧
    imgCandidate ⟨some "", some "z", none⟩ = imgCandidate ⟨none, some "z", none⟩ ∧
    envA.urljoin "s" "x.jpg" ∈
      (crawlStep envA "d" 1 (initState "s")).all_image_urls := by
  have h := img_attr_preference envA "d" 1 (initState "s") "s" 0 [] pageA rfl
    (by decide) (by decide) rfl
  refine ⟨?_, h.2.1 (some "z") none, ?_⟩
  · exact h.1 ⟨some "x.jpg", none, some "y.jpg"⟩ "x.jpg" rfl (by decide)
  · exact h.2.2.2.2 ⟨some "x.jpg", none, some "y.jpg"⟩ (by decide) "x.jpg" rfl
      (by decide) (by decide)

/-- Claim C1 counterexample: in envA the seed page links twice to the
same address a; after one iteration that address occupies two frontier
slots and two enqueue-log entries, and it is not in the visited set, so
addresses are neither added to the visited set at enqueue time nor queued
at most once. -/
theorem enqueue_time_dedup_cex :
    ¬ (((crawl_site envA "s" 1 1).enqueueLog.map Prod.fst).Nodup) ∧
    ("a", 1) ∈ (crawl_site envA "s" 1 1).to_visit ∧
    "a" ∉ (crawl_site envA "s" 1 1).visited := by
  decide

/-- Claim C1 amended: the visited set is consulted at enqueue time but
only extended when a page is popped and fetched, so a link never in the
visited set at its enqueue moment may still be placed on the frontier
more than once; the pop-time gate nevertheless keeps every address from
being fetched twice. -/
theorem enqueue_gate_amended (env : Env) (base_url : String) (max_depth : Int)
    (fuel : Nat) :
    (∀ s : CrawlState, ∀ cur : String, ∀ d : Nat, ∀ rest : List (String × Nat),
      s.to_visit = (cur, d) :: rest →
      ∀ q ∈ (crawlStep env (env.urlparse base_url).netloc max_depth s).enqueueLog,
        q ∈ s.enqueueLog ∨ q.1 ∉ addSet s.visited cur) ∧
    ((crawl_site env base_url max_depth fuel).fetchLog.map Prod.fst).Nodup := by
  constructor
  · intro s cur d rest hs
    refine crawlStep_cases env (env.urlparse base_url).netloc max_depth s
      (fun t => ∀ q ∈ t.enqueueLog, q ∈ s.enqueueLog ∨ q.1 ∉ addSet s.visited cur) ?_ ?_ ?_ ?_
    · intro _ q hq
      exact Or.inl hq
    · intro _ _ _ _ _ q hq
      exact Or.inl hq
    · intro _ _ _ _ _ _ q hq
      exact Or.inl hq
    · intro cur2 d2 rest2 page hs2 _ _ q hq
      rw [hs] at hs2
      injection hs2 with h1 h2
      injection h1 with e1 e2
      subst e1
      rcases List.mem_append.mp hq with hq | hq
      · exact Or.inl hq
      · right
        split at hq
        · rcases List.mem_map.mp hq with ⟨v, hv, rfl⟩
          exact (of_mem_newLinks hv).2.2
        · cases hq
  · exact crawl_site_fetch_nodup env base_url max_depth fuel

/-- Witness for claim C1 amended: the twice-enqueued address a of the
counterexample run was indeed absent from the visited set at its enqueue
moment, and no address is fetched twice in that run. -/
theorem enqueue_gate_amended_witness :
    (("a", 1) ∈ (initState "s").enqueueLog ∨
      "a" ∉ addSet (initState "s").visited "s") ∧
    ((crawl_site envA "s" 1 1).fetchLog.map Prod.fst).Nodup :=
  ⟨(enqueue_gate_amended envA "s" 1 1).1 (initState "s") "s" 0 [] rfl ("a", 1)
    (by decide),
   (enqueue_gate_amended envA "s" 1 1).2⟩

/-! The claims about the downloader. -/

theorem imageFileName_congr {env env2 : Env} (h : env2.urlparse = env.urlparse)
    (url : String) : imageFileName env2 url = imageFileName env url := by
  unfold imageFileName
  rw [h]

theorem download_image_saved {env : Env} {url output_folder : String}
    {fs : List String}
    (h : (download_image env url output_folder fs).1 = DownloadOutcome.saved) :
    ∃ name, imageFileName env url = some name ∧
      pathJoin output_folder name ∉ fs ∧
      (download_image env url output_folder fs).2.1 =
        pathJoin output_folder name :: fs := by
  unfold download_image at h ⊢
  rcases hn : imageFileName env url with _ | name
  · rw [hn] at h
    cases h
  · rw [hn] at h
    dsimp only at h ⊢
    by_cases hex : pathJoin output_folder name ∈ fs
    · rw [if_pos hex] at h
      cases h
    · rw [if_neg hex] at h ⊢
      rcases hf : env.imgFetch url with _ | ct
      · rw [hf] at h
        cases h
      · rw [hf] at h
        dsimp only at h
        rcases ct with _ | c
        · cases h
        · dsimp only at h
          by_cases hct : c = "" ∨ isImageContentType c = false
          · rw [if_pos hct] at h
            cases h
          · refine ⟨name, rfl, hex, ?_⟩
            dsimp only
            rw [if_neg hct]

/-- Claim C6: once a call of download_image has produced outcome saved, a
second call on the same URL and output folder returns alreadyPresent,
leaves the filesystem unchanged and performs no network fetch — whatever
the fetch capability would answer — because the existence check at the
derived path precedes any fetch; and alreadyPresent counts as success. -/
theorem download_image_idempotent (env : Env) (url output_folder : String)
    (fs : List String)
    (h : (download_image env url output_folder fs).1 = DownloadOutcome.saved) :
    (∀ env2 : Env, env2.urlparse = env.urlparse →
      download_image env2 url output_folder
          ((download_image env url output_folder fs).2.1) =
        (DownloadOutcome.alreadyPresent,
          (download_image env url output_folder fs).2.1, 0)) ∧
    DownloadOutcome.toBool DownloadOutcome.alreadyPresent = true := by
  obtain ⟨name, hn, _hex, hfs⟩ := download_image_saved h
  refine ⟨?_, rfl⟩
  intro env2 h2
  rw [hfs]
  unfold download_image
  rw [imageFileName_congr h2 url, hn]
  dsimp only
  rw [if_pos (List.mem_cons_self _ _)]

/-- Witness for claim C6: in envA a first download of the URL u saves the
file and a second call answers alreadyPresent without fetching. -/
theorem download_image_idempotent_witness :
    download_image envA "u" "out" ((download_image envA "u" "out" []).2.1) =
      (DownloadOutcome.alreadyPresent, (download_image envA "u" "out" []).2.1, 0) ∧
    DownloadOutcome.toBool DownloadOutcome.alreadyPresent = true :=
  ⟨(download_image_idempotent envA "u" "out" [] (by decide)).1 envA rfl,
   (download_image_idempotent envA "u" "out" [] (by decide)).2⟩

/-- Claim C7: when the image fetch succeeds but the response declares no
content type, an empty one, or one that does not indicate image content,
download_image skips: no file is written at the target path and the
outcome does not count as a success. -/
theorem download_image_content_type_guard (env : Env) (url output_folder : String)
    (fs : List String) (name : String)
    (hn : imageFileName env url = some name)
    (hex : pathJoin output_folder name ∉ fs)
    (ct : Option String) (hf : env.imgFetch url = .success ct)
    (hbad : ct = none ∨ ∃ c, ct = some c ∧ (c = "" ∨ isImageContentType c = false)) :
    download_image env url output_folder fs = (DownloadOutcome.skipped, fs, 1) ∧
    DownloadOutcome.toBool (download_image env url output_folder fs).1 = false := by
  have key : download_image env url output_folder fs =
      (DownloadOutcome.skipped, fs, 1) := by
    unfold download_image
    rw [hn]
    dsimp only
    rw [if_neg hex, hf]
    rcases hbad with rfl | ⟨c, rfl, hc⟩
    · rfl
    · dsimp only
      rw [if_pos hc]
  refine ⟨key, ?_⟩
  rw [key]
  rfl

/-- Witness for claim C7: a fetch answering content type text/html is
skipped, writes nothing and counts for nothing. -/
theorem download_image_content_type_guard_witness :
    download_image envHtml "u" "out" [] = (DownloadOutcome.skipped, [], 1) ∧
    DownloadOutcome.toBool (download_image envHtml "u" "out" []).1 = false :=
  download_image_content_type_guard envHtml "u" "out" [] "a.png" (by decide)
    (by decide) (some "text/html") rfl
    (Or.inr ⟨"text/html", rfl, Or.inr (by decide)⟩)

end SimpleWebCrawler
